import Mathlib

set_option maxRecDepth 100000

/-!
Shallow embedding of the xtotp core (apps/xtotp/src/main.rs): the OTP engine
(`unpack_u64`, `generate_hmac_bytes`, `generate_totp_code`) together with the
HMAC-SHA1 primitive it calls (the `hmac`/`sha1` crates), and a codec for
credential entries modelled from the specification (the codec itself is not
part of the provided source tree).

Bytes are `Nat` values below 256, byte strings are `List Nat`, and 32/64-bit
machine integers are `Nat` with explicit `% 2^32` / `% 2^64` where overflow
matters.  Rust panics (`todo!()`, division by zero, out-of-bounds indexing)
are modelled as `none` in an outer `Option` layer; typed `Err` returns are
modelled with `Except`.
-/

namespace Xtotp

/-! ## SHA-1 (the `sha1` crate, FIPS 180-4) -/

/-- Left rotation of a 32-bit word `x < 2^32`. -/
def rotl32 (n x : Nat) : Nat :=
  ((x <<< n) ||| (x >>> (32 - n))) % 2 ^ 32

/-- SHA-1 round function `f_t(b,c,d)` (FIPS 180-4 §4.1.1); words are < 2^32,
complement is taken within 32 bits. -/
def sha1_f (t b c d : Nat) : Nat :=
  if t < 20 then (b &&& c) ||| ((b ^^^ (2 ^ 32 - 1)) &&& d)
  else if t < 40 then b ^^^ c ^^^ d
  else if t < 60 then (b &&& c) ||| (b &&& d) ||| (c &&& d)
  else b ^^^ c ^^^ d

/-- SHA-1 round constants `K_t` (FIPS 180-4 §4.2.1). -/
def sha1_k (t : Nat) : Nat :=
  if t < 20 then 0x5A827999
  else if t < 40 then 0x6ED9EBA1
  else if t < 60 then 0x8F1BBCDC
  else 0xCA62C1D6

/-- Group a byte string into big-endian 32-bit words. -/
def wordsOfBytes (l : List Nat) : List Nat :=
  (List.range (l.length / 4)).map (fun i =>
    l.getD (4 * i) 0 * 2 ^ 24 + l.getD (4 * i + 1) 0 * 2 ^ 16 +
    l.getD (4 * i + 2) 0 * 2 ^ 8 + l.getD (4 * i + 3) 0)

/-- Serialize 32-bit words as big-endian bytes. -/
def bytesOfWords (ws : List Nat) : List Nat :=
  (ws.map (fun w => [w / 2 ^ 24 % 256, w / 2 ^ 16 % 256, w / 2 ^ 8 % 256, w % 256])).flatten

/-- Extend the 16 words of a block to the 80-word SHA-1 message schedule:
`W_t = ROTL1 (W_{t-3} ^^^ W_{t-8} ^^^ W_{t-14} ^^^ W_{t-16})` for `16 ≤ t < 80`. -/
def sha1_schedule (ws : List Nat) : List Nat :=
  (List.range 64).foldl (fun w i =>
    w ++ [rotl32 1 (w.getD (i + 13) 0 ^^^ w.getD (i + 8) 0 ^^^ w.getD (i + 2) 0 ^^^ w.getD i 0)]) ws

/-- Working state of the SHA-1 compression function. -/
structure Sha1State where
  a : Nat
  b : Nat
  c : Nat
  d : Nat
  e : Nat
  deriving DecidableEq, Repr

/-- One SHA-1 round: `T = ROTL5 a + f_t b c d + e + K_t + W_t (mod 2^32)`. -/
def sha1_round (w : List Nat) (st : Sha1State) (t : Nat) : Sha1State :=
  { a := (rotl32 5 st.a + sha1_f t st.b st.c st.d + st.e + sha1_k t + w.getD t 0) % 2 ^ 32
    b := st.a
    c := rotl32 30 st.b
    d := st.c
    e := st.d }

/-- SHA-1 initial hash value (FIPS 180-4 §5.3.1). -/
def sha1_init : Sha1State :=
  { a := 0x67452301, b := 0xEFCDAB89, c := 0x98BADCFE, d := 0x10325476, e := 0xC3D2E1F0 }

/-- Process one 64-byte block. -/
def sha1_compress (h : Sha1State) (block : List Nat) : Sha1State :=
  let w := sha1_schedule (wordsOfBytes block)
  let f := (List.range 80).foldl (sha1_round w) h
  { a := (h.a + f.a) % 2 ^ 32
    b := (h.b + f.b) % 2 ^ 32
    c := (h.c + f.c) % 2 ^ 32
    d := (h.d + f.d) % 2 ^ 32
    e := (h.e + f.e) % 2 ^ 32 }

/-- Serialize a `u64` into 8 bytes, most significant byte first
(`fn unpack_u64`, main.rs lines 84–89: `bytes[7 - i] = mask & (v >> (i * 8))`). -/
def unpack_u64 (v : Nat) : List Nat :=
  (List.range 8).foldl (fun bytes i => bytes.set (7 - i) (0xff &&& (v >>> (i * 8))))
    (List.replicate 8 0)

/-- SHA-1 padding: append `0x80`, zeros up to 56 mod 64, then the bit length
as 8 big-endian bytes. -/
def sha1_pad (msg : List Nat) : List Nat :=
  let len := msg.length
  let z := (56 + 64 - (len + 1) % 64) % 64
  msg ++ [0x80] ++ List.replicate z 0 ++ unpack_u64 (len * 8 % 2 ^ 64)

/-- SHA-1 digest (20 bytes) of a byte string. -/
def sha1 (msg : List Nat) : List Nat :=
  let padded := sha1_pad msg
  let f := (List.range (padded.length / 64)).foldl
    (fun h i => sha1_compress h ((padded.drop (64 * i)).take 64)) sha1_init
  bytesOfWords [f.a, f.b, f.c, f.d, f.e]

/-! ## HMAC-SHA1 (the `hmac` crate, RFC 2104) -/

/-- HMAC-SHA1: the key is hashed if longer than the 64-byte block, zero-padded
to 64 bytes, then `H((K0 ^ opad) ++ H((K0 ^ ipad) ++ msg))`. -/
def hmac_sha1 (key msg : List Nat) : List Nat :=
  let k := if 64 < key.length then sha1 key else key
  let k0 := k ++ List.replicate (64 - k.length) 0
  let ipad := k0.map (fun b => b ^^^ 0x36)
  let opad := k0.map (fun b => b ^^^ 0x5c)
  sha1 (opad ++ sha1 (ipad ++ msg))

/-! ## Data model (main.rs lines 44–76) -/

/-- Source `enum TotpAlgorithm` (main.rs lines 44–49). -/
inductive TotpAlgorithm where
  | hmacSha1
  | hmacSha256
  | hmacSha512
  deriving DecidableEq, Repr

/-- Source `struct TotpEntry` (main.rs lines 51–58): `step_seconds` models a `u16`,
`digit_count` a `u8`, `shared_secret` a `Vec<u8>`. -/
structure TotpEntry where
  name : String
  step_seconds : Nat
  shared_secret : List Nat
  digit_count : Nat
  algorithm : TotpAlgorithm
  deriving DecidableEq, Repr

/-- Source `enum Error` (main.rs lines 60–64): `Io(std::io::Error)` and
`DigestLength(InvalidLength)`. -/
inductive Error where
  | io
  | digestLength
  deriving DecidableEq, Repr

/-- Constructor `Hmac::<Sha1>::new_from_slice` from the `hmac` crate: HMAC accepts keys of
any length (RFC 2104 — long keys are hashed, short keys zero-padded), so this
constructor never returns `InvalidLength`; it holds the key material. -/
def hmac_new_from_slice (key : List Nat) : Except Error (List Nat) :=
  .ok key

/-- The time counter `unix_timestamp / totp_entry.step_seconds as u64`
(main.rs line 98). -/
def time_counter (unix_timestamp : Nat) (e : TotpEntry) : Nat :=
  unix_timestamp / e.step_seconds

/-- Source `fn generate_hmac_bytes` (main.rs lines 91–106).  Only `HmacSha1` is
implemented; the catch-all arm is `todo!()`, a panic, modelled as `none`.
The `u64` division `unix_timestamp / step_seconds` panics when
`step_seconds = 0`, also modelled as `none`. -/
def generate_hmac_bytes (unix_timestamp : Nat) (totp_entry : TotpEntry) :
    Option (Except Error (List Nat)) :=
  match totp_entry.algorithm with
  | .hmacSha1 =>
    match hmac_new_from_slice totp_entry.shared_secret with
    | .error e => some (.error e)
    | .ok key =>
      if totp_entry.step_seconds = 0 then none
      else some (.ok (hmac_sha1 key (unpack_u64 (time_counter unix_timestamp totp_entry))))
  | _ => none

/-- Decimal digits of `n`, most significant first; the first argument is
structural fuel, sufficient whenever `n < fuel`. -/
def dec_digits : Nat → Nat → List Char
  | 0, _ => []
  | fuel + 1, n =>
    if n < 10 then [Nat.digitChar n]
    else dec_digits fuel (n / 10) ++ [Nat.digitChar (n % 10)]

/-- Rust's `format!("{:01$}", n, w)`: the decimal rendering of `n`,
left-padded with `'0'` to at least `w` characters. -/
def format_padded (n w : Nat) : String :=
  let s := dec_digits (n + 1) n
  ⟨List.replicate (w - s.length) '0' ++ s⟩

/-- Source `fn generate_totp_code` (main.rs lines 108–123).  The four `hash[...]`
index expressions panic when out of bounds, modelled as `none`.
The modulus `10_u64.pow(totp_entry.digit_count as u32)` is `u64` arithmetic:
it wraps modulo `2^64` (release profile; a debug build already panics at the
`pow` once `digit_count ≥ 20`), and for `digit_count ≥ 64` the wrapped value
is `0`, making `binary % 0` panic in every profile — modelled as `none`. -/
def generate_totp_code (unix_timestamp : Nat) (totp_entry : TotpEntry) :
    Option (Except Error String) :=
  match generate_hmac_bytes unix_timestamp totp_entry with
  | none => none
  | some (.error e) => some (.error e)
  | some (.ok hash) =>
    let offset := (hash.getLast?.getD 0) &&& 0xf
    match hash.get? offset, hash.get? (offset + 1), hash.get? (offset + 2),
        hash.get? (offset + 3) with
    | some h0, some h1, some h2, some h3 =>
      let binary := ((h0 &&& 0x7f) <<< 24) ||| (h1 <<< 16) ||| (h2 <<< 8) ||| h3
      let modulus := 10 ^ totp_entry.digit_count % 2 ^ 64
      if modulus = 0 then none
      else some (.ok (format_padded (binary % modulus) totp_entry.digit_count))
    | _, _, _, _ => none

/-! ## Specification-side reference definitions

These restate the spec's wording of the algorithmic steps, to be compared
with the definitions embedded from the source. -/

/-- The spec's serialization of the counter: "8 bytes, big-endian (most
significant byte first)" — byte `j` is `T / 2^(8*(7-j)) mod 256`. -/
def be_bytes64 (v : Nat) : List Nat :=
  (List.range 8).map (fun j => v / 2 ^ (8 * (7 - j)) % 256)

/-- The spec's dynamic truncation: `offset` is the low nibble of the final
digest byte; take 4 bytes at `offset`, clear bit 7 of the first, and read
them as a big-endian unsigned 31-bit integer. -/
def dynamic_truncation (d : List Nat) : Nat :=
  let offset := d.getLastD 0 % 16
  d.getD offset 0 % 128 * 2 ^ 24 + d.getD (offset + 1) 0 * 2 ^ 16 +
    d.getD (offset + 2) 0 * 2 ^ 8 + d.getD (offset + 3) 0

/-! ## Binary codec, modelled from the spec

The repository's persisted-entry codec is not part of the provided source
tree (main.rs only declares `mod xtotp_generated` and never reads or writes
entries), so it is modelled from the spec: §4.1/§6 prescribe an algorithm
tag (1 byte), `step_seconds` (2 bytes, fixed width), `digit_count` (1 byte),
a length-prefixed `name` and a length-prefixed `shared_secret`, with decode
validating every §3 invariant before returning.  Length prefixes are 2-byte
big-endian; `name` is carried as its UTF-8 bytes. -/

/-- Modelled from the spec: the credential entry as persisted, `name` as its
UTF-8 bytes. -/
structure CredentialEntry where
  name : List Nat
  step_seconds : Nat
  shared_secret : List Nat
  digit_count : Nat
  algorithm : TotpAlgorithm
  deriving DecidableEq, Repr

/-- Modelled from the spec: the §3 invariants of a credential entry, plus
the field-width bounds of the wire format (`u16` step, 2-byte length
prefixes, byte-valued list elements). -/
def valid_entry (e : CredentialEntry) : Prop :=
  0 < e.name.length ∧ e.name.length < 2 ^ 16 ∧ (∀ b ∈ e.name, b < 256) ∧
  0 < e.step_seconds ∧ e.step_seconds < 2 ^ 16 ∧
  0 < e.shared_secret.length ∧ e.shared_secret.length < 2 ^ 16 ∧
  (∀ b ∈ e.shared_secret, b < 256) ∧
  1 ≤ e.digit_count ∧ e.digit_count ≤ 9

instance (e : CredentialEntry) : Decidable (valid_entry e) := by
  unfold valid_entry; infer_instance

/-- Modelled from the spec: the small-integer algorithm tag. -/
def algorithm_tag : TotpAlgorithm → Nat
  | .hmacSha1 => 1
  | .hmacSha256 => 2
  | .hmacSha512 => 3

/-- Modelled from the spec: decoding of the algorithm tag; unknown tags are
decode errors, not silent defaults. -/
def algorithm_of_tag : Nat → Option TotpAlgorithm
  | 1 => some .hmacSha1
  | 2 => some .hmacSha256
  | 3 => some .hmacSha512
  | _ => none

/-- Modelled from the spec: `encode(entry) -> bytes`; algorithm tag,
big-endian `step_seconds`, `digit_count`, 2-byte big-endian length prefix
then `name`, 2-byte big-endian length prefix then `shared_secret`. -/
def encode_entry (e : CredentialEntry) : List Nat :=
  algorithm_tag e.algorithm :: e.step_seconds / 256 :: e.step_seconds % 256 ::
    e.digit_count :: e.name.length / 256 :: e.name.length % 256 ::
    (e.name ++ e.shared_secret.length / 256 :: e.shared_secret.length % 256 :: e.shared_secret)

/-- Modelled from the spec: the validation applied before `decode` returns an
entry — it must never return a `CredentialEntry` violating the §3 invariants. -/
def check_entry (e : CredentialEntry) : Option CredentialEntry :=
  if 0 < e.name.length ∧ 0 < e.step_seconds ∧ 0 < e.shared_secret.length ∧
      1 ≤ e.digit_count ∧ e.digit_count ≤ 9 then
    some e
  else none

/-- Modelled from the spec: `decode(bytes) -> CredentialEntry | DecodeError`
(`none` is the decode error: unknown tag, truncated buffer, trailing bytes,
or an invariant violation). -/
def decode_entry (bs : List Nat) : Option CredentialEntry :=
  match bs with
  | tag :: s1 :: s0 :: dc :: n1 :: n0 :: rest =>
    match algorithm_of_tag tag with
    | none => none
    | some alg =>
      if n1 * 256 + n0 ≤ rest.length then
        match rest.drop (n1 * 256 + n0) with
        | k1 :: k0 :: rest2 =>
          if rest2.length = k1 * 256 + k0 then
            check_entry
              { name := rest.take (n1 * 256 + n0)
                step_seconds := s1 * 256 + s0
                shared_secret := rest2
                digit_count := dc
                algorithm := alg }
          else none
        | _ => none
      else none
  | _ => none

/-! ## Helper lemmas -/

theorem bytesOfWords_length (ws : List Nat) : (bytesOfWords ws).length = 4 * ws.length := by
  induction ws with
  | nil => rfl
  | cons w ws ih =>
    simp only [bytesOfWords] at ih ⊢
    simp only [List.map_cons, List.flatten_cons, List.length_append, ih, List.length_cons,
      List.length_nil]
    omega

theorem bytesOfWords_lt (ws : List Nat) : ∀ b ∈ bytesOfWords ws, b < 256 := by
  intro b hb
  simp only [bytesOfWords, List.mem_flatten, List.mem_map] at hb
  obtain ⟨l, ⟨w, _, rfl⟩, hbl⟩ := hb
  simp only [List.mem_cons, List.not_mem_nil, or_false] at hbl
  rcases hbl with rfl | rfl | rfl | rfl <;> exact Nat.mod_lt _ (by norm_num)

theorem sha1_length (msg : List Nat) : (sha1 msg).length = 20 := by
  rw [sha1, bytesOfWords_length]
  rfl

theorem sha1_lt (msg : List Nat) : ∀ b ∈ sha1 msg, b < 256 := by
  rw [sha1]; exact bytesOfWords_lt _

theorem hmac_sha1_length (key msg : List Nat) : (hmac_sha1 key msg).length = 20 :=
  sha1_length _

theorem hmac_sha1_lt (key msg : List Nat) : ∀ b ∈ hmac_sha1 key msg, b < 256 :=
  sha1_lt _

/-- Bitwise-or of a shifted value with a value fitting below the shift is
addition. -/
theorem lor_shift_add {b : Nat} (a : Nat) {k : Nat} (hb : b < 2 ^ k) :
    (a <<< k) ||| b = a * 2 ^ k + b := by
  rw [Nat.shiftLeft_eq, Nat.mul_comm, ← Nat.mul_add_lt_is_or hb, Nat.mul_comm]

/-- Inversion of a successful `generate_hmac_bytes` call: only the
`HmacSha1` arm, with a nonzero step, produces a digest. -/
theorem hmac_ok_inv {t : Nat} {e : TotpEntry} {d : List Nat}
    (hd : generate_hmac_bytes t e = some (.ok d)) :
    e.algorithm = .hmacSha1 ∧ e.step_seconds ≠ 0 ∧
      d = hmac_sha1 e.shared_secret (unpack_u64 (time_counter t e)) := by
  obtain ⟨name, step, secret, dc, alg⟩ := e
  cases alg with
  | hmacSha1 =>
    simp only [generate_hmac_bytes, hmac_new_from_slice] at hd
    split at hd
    next h0 => cases hd
    next h0 =>
      simp only [Option.some.injEq, Except.ok.injEq] at hd
      exact ⟨rfl, h0, hd.symm⟩
  | hmacSha256 => simp [generate_hmac_bytes] at hd
  | hmacSha512 => simp [generate_hmac_bytes] at hd

theorem dec_digits_length {fuel n w : Nat} (hfuel : n < fuel) (hw : 1 ≤ w)
    (hn : n < 10 ^ w) : (dec_digits fuel n).length ≤ w := by
  induction fuel generalizing n w with
  | zero => omega
  | succ fuel ih =>
    rw [dec_digits]
    by_cases h10 : n < 10
    · simpa [h10] using hw
    · rw [if_neg h10, List.length_append]
      have hw2 : 2 ≤ w := by
        by_contra hlt
        have : w = 1 := by omega
        subst this
        simp at hn
        omega
      have hdiv : n / 10 < 10 ^ (w - 1) := by
        rw [Nat.div_lt_iff_lt_mul (by norm_num)]
        calc n < 10 ^ w := hn
        _ = 10 ^ (w - 1) * 10 := by
            rw [← Nat.pow_succ]
            congr 1
            omega
      have := ih (n := n / 10) (w := w - 1) (by omega) (by omega) hdiv
      simp
      omega

theorem format_padded_length {n w : Nat} (hw : 1 ≤ w) (hn : n < 10 ^ w) :
    (format_padded n w).length = w := by
  have h := dec_digits_length (show n < n + 1 by omega) hw hn
  simp only [format_padded, String.length, List.length_append, List.length_replicate]
  omega

theorem pow10_mod_eq {dc : Nat} (h : dc ≤ 19) : 10 ^ dc % 2 ^ 64 = 10 ^ dc :=
  Nat.mod_eq_of_lt (by
    calc 10 ^ dc ≤ 10 ^ 19 := Nat.pow_le_pow_right (by norm_num) h
    _ < 2 ^ 64 := by norm_num)

theorem pow10_mod_ne_zero {dc : Nat} (h : dc ≤ 19) : 10 ^ dc % 2 ^ 64 ≠ 0 := by
  rw [pow10_mod_eq h]
  exact Nat.pos_iff_ne_zero.mp (Nat.pos_pow_of_pos _ (by norm_num))

theorem and_15_eq_mod (x : Nat) : x &&& 0xf = x % 16 := by
  have h : (0xf : Nat) = 2 ^ 4 - 1 := by norm_num
  rw [h, Nat.and_pow_two_sub_one_eq_mod]

theorem and_127_eq_mod (x : Nat) : x &&& 0x7f = x % 128 := by
  have h : (0x7f : Nat) = 2 ^ 7 - 1 := by norm_num
  rw [h, Nat.and_pow_two_sub_one_eq_mod]

theorem and_255_eq_mod (x : Nat) : 0xff &&& x = x % 256 := by
  have h : (0xff : Nat) = 2 ^ 8 - 1 := by norm_num
  rw [Nat.and_comm, h, Nat.and_pow_two_sub_one_eq_mod]

theorem get?_eq_getD {l : List Nat} {i : Nat} (h : i < l.length) :
    l.get? i = some (l.getD i 0) := by
  rw [List.getD_eq_getElem?_getD, List.get?_eq_getElem?, List.getElem?_eq_getElem h]
  rfl

theorem getD_lt_of_forall {l : List Nat} (hl : ∀ b ∈ l, b < 256) {i : Nat}
    (h : i < l.length) : l.getD i 0 < 256 := by
  rw [List.getD_eq_getElem?_getD, List.getElem?_eq_getElem h]
  exact hl _ (List.getElem_mem h)

theorem digest_bytes {t : Nat} {e : TotpEntry} {d : List Nat}
    (hd : generate_hmac_bytes t e = some (.ok d)) :
    d.length = 20 ∧ ∀ b ∈ d, b < 256 := by
  obtain ⟨-, -, rfl⟩ := hmac_ok_inv hd
  exact ⟨hmac_sha1_length _ _, hmac_sha1_lt _ _⟩

/-- Evaluation of `generate_totp_code` on a successful digest: the dynamic
truncation of the source (masks, shifts, ors) agrees with the spec's
arithmetic description, the match on the four index lookups succeeds, and
the outcome is the padded code — or the `binary % 0` panic when the wrapped
`u64` modulus `10 ^ digit_count % 2^64` is zero. -/
theorem generate_totp_code_eval {t : Nat} {e : TotpEntry} {d : List Nat}
    (hd : generate_hmac_bytes t e = some (.ok d)) :
    generate_totp_code t e =
      if 10 ^ e.digit_count % 2 ^ 64 = 0 then none
      else some (.ok (format_padded
        (dynamic_truncation d % (10 ^ e.digit_count % 2 ^ 64)) e.digit_count)) := by
  obtain ⟨hlen, hbytes⟩ := digest_bytes hd
  have hoff : (d.getLast?.getD 0) &&& 0xf ≤ 15 := by
    calc (d.getLast?.getD 0) &&& 0xf ≤ 0xf := Nat.and_le_right
    _ ≤ 15 := by norm_num
  set off := (d.getLast?.getD 0) &&& 0xf with hoffdef
  have g0 := get?_eq_getD (l := d) (i := off) (by omega)
  have g1 := get?_eq_getD (l := d) (i := off + 1) (by omega)
  have g2 := get?_eq_getD (l := d) (i := off + 2) (by omega)
  have g3 := get?_eq_getD (l := d) (i := off + 3) (by omega)
  have b0 := getD_lt_of_forall hbytes (i := off) (by omega)
  have b1 := getD_lt_of_forall hbytes (i := off + 1) (by omega)
  have b2 := getD_lt_of_forall hbytes (i := off + 2) (by omega)
  have b3 := getD_lt_of_forall hbytes (i := off + 3) (by omega)
  have e8 : (2 : Nat) ^ 8 = 256 := by norm_num
  have e16 : (2 : Nat) ^ 16 = 65536 := by norm_num
  have e24 : (2 : Nat) ^ 24 = 16777216 := by norm_num
  simp only [generate_totp_code, hd, ← hoffdef, g0, g1, g2, g3]
  have hbin : ((d.getD off 0 &&& 0x7f) <<< 24) ||| (d.getD (off + 1) 0 <<< 16) |||
      (d.getD (off + 2) 0 <<< 8) ||| d.getD (off + 3) 0 = dynamic_truncation d := by
    rw [Nat.lor_assoc, Nat.lor_assoc]
    rw [lor_shift_add (d.getD (off + 2) 0) (by omega : d.getD (off + 3) 0 < 2 ^ 8)]
    rw [lor_shift_add (d.getD (off + 1) 0)
      (by rw [e16]; omega : d.getD (off + 2) 0 * 2 ^ 8 + d.getD (off + 3) 0 < 2 ^ 16)]
    rw [lor_shift_add (d.getD off 0 &&& 0x7f)
      (by rw [e24]; rw [e16] at *; omega :
        d.getD (off + 1) 0 * 2 ^ 16 + (d.getD (off + 2) 0 * 2 ^ 8 + d.getD (off + 3) 0) < 2 ^ 24)]
    rw [and_127_eq_mod]
    simp only [dynamic_truncation, List.getLastD_eq_getLast?, ← and_15_eq_mod, ← hoffdef]
    ring
  rw [hbin]

/-! ## Concrete entries used in the theorems below -/

/-- The RFC 6238 test entry: ASCII secret `"12345678901234567890"`,
HMAC-SHA1, 30-second step, 8 digits. -/
def rfc_test_entry : TotpEntry :=
  { name := "rfc6238"
    step_seconds := 30
    shared_secret := [0x31, 0x32, 0x33, 0x34, 0x35, 0x36, 0x37, 0x38, 0x39, 0x30,
                      0x31, 0x32, 0x33, 0x34, 0x35, 0x36, 0x37, 0x38, 0x39, 0x30]
    digit_count := 8
    algorithm := .hmacSha1 }

/-- The digest the engine computes for the RFC 6238 entry at `unix_time = 59`. -/
def rfc_digest : List Nat :=
  hmac_sha1 rfc_test_entry.shared_secret (unpack_u64 (time_counter 59 rfc_test_entry))

/-! ## Claim theorems -/

/-- C1: for the entry with shared secret equal to the ASCII bytes of
`"12345678901234567890"`, HMAC-SHA1, `step_seconds = 30`, `digit_count = 8`,
the code-generation function at `unix_time = 59` returns exactly the string
`"94287082"` (the RFC 6238 published test vector). -/
theorem rfc6238_vector_59 :
    generate_totp_code 59 rfc_test_entry = some (.ok "94287082") := by
  rfl

/-- C2: for every valid entry (`digit_count` in `[1,9]`) and every unix time,
when code generation succeeds on HMAC digest `d`, the result is the decimal
rendering of `dynamic_truncation d mod 10^digit_count`, left-padded with
zeros, and it has exactly `digit_count` characters. -/
theorem totp_code_truncation_format {t : Nat} {e : TotpEntry} {d : List Nat}
    (h1 : 1 ≤ e.digit_count) (h9 : e.digit_count ≤ 9)
    (hd : generate_hmac_bytes t e = some (.ok d)) :
    generate_totp_code t e =
      some (.ok (format_padded (dynamic_truncation d % 10 ^ e.digit_count) e.digit_count)) ∧
    (format_padded (dynamic_truncation d % 10 ^ e.digit_count) e.digit_count).length
      = e.digit_count := by
  have hm : 10 ^ e.digit_count % 2 ^ 64 = 10 ^ e.digit_count := pow10_mod_eq (by omega)
  have hev := generate_totp_code_eval hd
  rw [hm, if_neg (Nat.pos_iff_ne_zero.mp (Nat.pos_pow_of_pos _ (by norm_num)))] at hev
  exact ⟨hev, format_padded_length h1 (Nat.mod_lt _ (Nat.pos_pow_of_pos _ (by norm_num)))⟩

theorem totp_code_truncation_format_witness :
    generate_totp_code 59 rfc_test_entry =
      some (.ok (format_padded (dynamic_truncation rfc_digest % 10 ^ 8) 8)) ∧
    (format_padded (dynamic_truncation rfc_digest % 10 ^ 8) 8).length = 8 :=
  totp_code_truncation_format (e := rfc_test_entry) (by decide) (by decide) rfl

/-- C3: the claim asks every algorithm variant to be fully implemented, but
the source's catch-all arm for `HmacSha256`/`HmacSha512` is `todo!()`, a
panic (modelled `none`) rather than a code or a typed error. -/
theorem sha256_sha512_todo_panics :
    generate_hmac_bytes 59 { rfc_test_entry with algorithm := .hmacSha256 } = none ∧
    generate_hmac_bytes 59 { rfc_test_entry with algorithm := .hmacSha512 } = none :=
  ⟨rfl, rfl⟩

/-- C4: the HOTP counter passed as the HMAC message is
`T = unix_time / step_seconds` serialized by `unpack_u64` as exactly 8 bytes,
and `unpack_u64` agrees with the spec's big-endian encoding on every value. -/
theorem counter_big_endian (v t : Nat) (e : TotpEntry)
    (halg : e.algorithm = .hmacSha1) (hs : e.step_seconds ≠ 0) :
    unpack_u64 v = be_bytes64 v ∧
    generate_hmac_bytes t e =
      some (.ok (hmac_sha1 e.shared_secret (unpack_u64 (time_counter t e)))) := by
  constructor
  · have hbyte : ∀ k, 0xff &&& (v >>> k) = v / 2 ^ k % 256 := by
      intro k
      rw [and_255_eq_mod, Nat.shiftRight_eq_div_pow]
    have hunp : unpack_u64 v =
        [0xff &&& (v >>> 56), 0xff &&& (v >>> 48), 0xff &&& (v >>> 40), 0xff &&& (v >>> 32),
         0xff &&& (v >>> 24), 0xff &&& (v >>> 16), 0xff &&& (v >>> 8), 0xff &&& (v >>> 0)] := rfl
    have hbe : be_bytes64 v =
        [v / 2 ^ 56 % 256, v / 2 ^ 48 % 256, v / 2 ^ 40 % 256, v / 2 ^ 32 % 256,
         v / 2 ^ 24 % 256, v / 2 ^ 16 % 256, v / 2 ^ 8 % 256, v / 2 ^ 0 % 256] := rfl
    rw [hunp, hbe]
    simp only [hbyte]
  · obtain ⟨name, step, secret, dc, alg⟩ := e
    cases alg with
    | hmacSha1 => simp [generate_hmac_bytes, hmac_new_from_slice, hs]
    | hmacSha256 => cases halg
    | hmacSha512 => cases halg

theorem counter_big_endian_witness :
    unpack_u64 1 = be_bytes64 1 ∧
    generate_hmac_bytes 59 rfc_test_entry =
      some (.ok (hmac_sha1 rfc_test_entry.shared_secret
        (unpack_u64 (time_counter 59 rfc_test_entry)))) :=
  counter_big_endian 1 59 rfc_test_entry (by decide) (by decide)

/-- C8: for every HMAC-SHA1 digest the engine produces, the truncation offset
is at most 15 while the digest has 20 bytes, so every index the truncation
reads (`offset` through `offset + 3`) is strictly in bounds and the four
indexing operations themselves can never fail or panic: each lookup
returns a byte. -/
theorem truncation_in_bounds {t : Nat} {e : TotpEntry} {d : List Nat}
    (hd : generate_hmac_bytes t e = some (.ok d)) :
    d.length = 20 ∧ (d.getLast?.getD 0 &&& 0xf) + 3 < d.length ∧
      ∀ j ≤ 3, (d.get? ((d.getLast?.getD 0 &&& 0xf) + j)).isSome = true := by
  obtain ⟨hlen, -⟩ := digest_bytes hd
  have hoff : d.getLast?.getD 0 &&& 0xf ≤ 15 :=
    le_trans Nat.and_le_right (by norm_num)
  refine ⟨hlen, by omega, ?_⟩
  intro j hj
  rw [get?_eq_getD (by omega)]
  rfl

theorem truncation_in_bounds_witness :
    rfc_digest.length = 20 ∧ (rfc_digest.getLast?.getD 0 &&& 0xf) + 3 < rfc_digest.length ∧
      ∀ j ≤ 3, (rfc_digest.get? ((rfc_digest.getLast?.getD 0 &&& 0xf) + j)).isSome = true :=
  truncation_in_bounds (t := 59) (e := rfc_test_entry) rfl

/-- C9: when `step_seconds = s > 0` and `unix_time = t` lies exactly on a step
boundary (`t % s = 0`, `t ≥ s`), the time counter at `t` is exactly one more
than the time counter at `t - 1`. -/
theorem step_boundary_adjacent (t : Nat) (e : TotpEntry)
    (hs : 0 < e.step_seconds) (hmod : t % e.step_seconds = 0)
    (hge : e.step_seconds ≤ t) :
    time_counter t e = time_counter (t - 1) e + 1 := by
  obtain ⟨k, hk⟩ : e.step_seconds ∣ t := Nat.dvd_of_mod_eq_zero hmod
  have hk1 : 1 ≤ k := by
    rcases Nat.eq_zero_or_pos k with h | h
    · rw [h, Nat.mul_zero] at hk; omega
    · omega
  have hts : e.step_seconds * (k - 1) + e.step_seconds = t := by
    rw [hk, ← Nat.mul_succ]
    congr 1
    omega
  have ht1 : t - 1 = e.step_seconds * (k - 1) + (e.step_seconds - 1) := by omega
  have hq1 : time_counter t e = k := by
    rw [time_counter, hk, Nat.mul_div_cancel_left _ hs]
  have hq2 : time_counter (t - 1) e = k - 1 := by
    rw [time_counter, ht1, Nat.mul_add_div hs, Nat.div_eq_of_lt (by omega)]
    omega
  omega

theorem step_boundary_adjacent_witness :
    time_counter 60 rfc_test_entry = time_counter 59 rfc_test_entry + 1 :=
  step_boundary_adjacent 60 rfc_test_entry (by decide) (by decide) (by decide)

/-- C10: the engine performs no check of its own on `step_seconds`: for an
HMAC-SHA1 entry with `step_seconds = 0`, the counter computation divides by
zero — a panic (`none`), never a typed error — and code generation panics
with it, so the engine is error-free only when the caller upholds the
`step_seconds > 0` invariant. -/
theorem step_zero_division_panics (t : Nat) (e : TotpEntry)
    (halg : e.algorithm = .hmacSha1) (hs : e.step_seconds = 0) :
    generate_hmac_bytes t e = none ∧ generate_totp_code t e = none := by
  obtain ⟨name, step, secret, dc, alg⟩ := e
  cases alg with
  | hmacSha1 =>
    have hs0 : step = 0 := hs
    constructor
    · simp [generate_hmac_bytes, hmac_new_from_slice, hs0]
    · simp [generate_totp_code, generate_hmac_bytes, hmac_new_from_slice, hs0]
  | hmacSha256 => cases halg
  | hmacSha512 => cases halg

theorem step_zero_division_panics_witness :
    generate_hmac_bytes 59 { rfc_test_entry with step_seconds := 0 } = none ∧
    generate_totp_code 59 { rfc_test_entry with step_seconds := 0 } = none :=
  step_zero_division_panics 59 { rfc_test_entry with step_seconds := 0 }
    (by decide) (by decide)

/-- A concrete valid credential entry (name `"Work"` in UTF-8). -/
def sample_credential : CredentialEntry :=
  { name := [0x57, 0x6F, 0x72, 0x6B]
    step_seconds := 30
    shared_secret := [0xDE, 0xAD, 0xBE, 0xEF]
    digit_count := 6
    algorithm := .hmacSha1 }

/-- C5: decoding the encoding of a valid credential entry yields exactly the
entry back. -/
theorem decode_encode_roundtrip {e : CredentialEntry} (h : valid_entry e) :
    decode_entry (encode_entry e) = some e := by
  obtain ⟨name, step, secret, dc, alg⟩ := e
  obtain ⟨hn0, hn16, -, hs0, hs16, hk0, hk16, -, hd1, hd9⟩ := h
  cases alg <;>
  · simp only [encode_entry, decode_entry, algorithm_tag, algorithm_of_tag]
    rw [Nat.div_add_mod']
    rw [if_pos (by simp [List.length_append])]
    simp only [List.drop_left, List.take_left]
    rw [Nat.div_add_mod', Nat.div_add_mod']
    rw [if_pos rfl]
    rw [check_entry, if_pos ⟨hn0, hs0, hk0, hd1, hd9⟩]

theorem decode_encode_roundtrip_witness :
    decode_entry (encode_entry sample_credential) = some sample_credential :=
  decode_encode_roundtrip (by decide)

/-- C6 (as stated) is violated by the engine: an entry with
`digit_count = 10` is not rejected — code generation silently processes it
into a 10-character code. -/
theorem invalid_digit_count_processed :
    generate_totp_code 59 { rfc_test_entry with digit_count := 10 } =
      some (.ok "1094287082") := by
  rfl

/-- C6 amended: decoding an entry with `digit_count` outside `[1,9]` or an
empty `shared_secret` fails, and decode never returns an entry violating the
§3 invariants; the engine itself, however, performs no validation (see the
counterexample). -/
theorem decode_rejects_invalid {bs : List Nat} {e : CredentialEntry}
    (h : decode_entry bs = some e) :
    0 < e.name.length ∧ 0 < e.step_seconds ∧ 0 < e.shared_secret.length ∧
      1 ≤ e.digit_count ∧ e.digit_count ≤ 9 := by
  unfold decode_entry at h
  repeat' split at h
  all_goals try cases h
  unfold check_entry at h
  split at h
  · rename_i hc
    cases h
    exact hc
  · cases h

theorem decode_rejects_invalid_witness :
    0 < sample_credential.name.length ∧ 0 < sample_credential.step_seconds ∧
      0 < sample_credential.shared_secret.length ∧
      1 ≤ sample_credential.digit_count ∧ sample_credential.digit_count ≤ 9 :=
  @decode_rejects_invalid (encode_entry sample_credential) sample_credential (by decide)

/-- C7 (as stated) is violated: HMAC accepts a zero-length key, so code
generation for an HMAC-SHA1 entry with an empty shared secret succeeds with
a code instead of returning an `EngineError`. -/
theorem empty_secret_succeeds :
    generate_totp_code 59 { rfc_test_entry with shared_secret := [] } =
      some (.ok "30812658") := by
  rfl

/-- C7 amended: code generation never returns a typed error for any entry —
the HMAC construction accepts keys of any length (including empty), so the
`DigestLength` path is unreachable and every failure is a panic; moreover,
for HMAC-SHA1 entries with a nonzero step and `digit_count ≤ 19` (so that
`10_u64.pow(digit_count)` does not overflow), it succeeds with a code,
whatever the shared secret. -/
theorem never_typed_error (t : Nat) (e : TotpEntry) :
    (∀ err, generate_totp_code t e ≠ some (.error err)) ∧
    (e.algorithm = .hmacSha1 → e.step_seconds ≠ 0 → e.digit_count ≤ 19 →
      ∃ s, generate_totp_code t e = some (.ok s)) := by
  obtain ⟨name, step, secret, dc, alg⟩ := e
  constructor
  · intro err
    cases alg with
    | hmacSha1 =>
      by_cases hstep : step = 0
      · simp [generate_totp_code, generate_hmac_bytes, hmac_new_from_slice, hstep]
      · have hd : generate_hmac_bytes t ⟨name, step, secret, dc, .hmacSha1⟩ =
            some (.ok (hmac_sha1 secret
              (unpack_u64 (time_counter t ⟨name, step, secret, dc, .hmacSha1⟩)))) := by
          simp [generate_hmac_bytes, hmac_new_from_slice, hstep]
        rw [generate_totp_code_eval hd]
        split
        · simp
        · simp
    | hmacSha256 => simp [generate_totp_code, generate_hmac_bytes]
    | hmacSha512 => simp [generate_totp_code, generate_hmac_bytes]
  · intro halg hstep hdc
    cases alg with
    | hmacSha1 =>
      have hd : generate_hmac_bytes t ⟨name, step, secret, dc, .hmacSha1⟩ =
          some (.ok (hmac_sha1 secret
            (unpack_u64 (time_counter t ⟨name, step, secret, dc, .hmacSha1⟩)))) := by
        simp [generate_hmac_bytes, hmac_new_from_slice, hstep]
      rw [generate_totp_code_eval hd, if_neg (pow10_mod_ne_zero hdc)]
      exact ⟨_, rfl⟩
    | hmacSha256 => cases halg
    | hmacSha512 => cases halg

theorem never_typed_error_witness :
    generate_totp_code 59 { rfc_test_entry with shared_secret := [] } ≠
      some (.error .io) ∧
    ∃ s, generate_totp_code 59 { rfc_test_entry with shared_secret := [] } =
      some (.ok s) :=
  ⟨(never_typed_error 59 { rfc_test_entry with shared_secret := [] }).1 .io,
   (never_typed_error 59 { rfc_test_entry with shared_secret := [] }).2
     (by decide) (by decide) (by decide)⟩

end Xtotp
